import Mathlib

/-!
# Verification of `slicer.py` (apple-slicer)

A shallow embedding of the apple-slicer script.  The script parses iTunes
Connect financial reports (tab-delimited text files), aggregates sales per
country and product, converts foreign amounts into a local currency using an
exchange-rate reference file, and prints the sales grouped by the Apple
subsidiary accountable for each country.

Modelling conventions:

* A tab-delimited file is modelled as a `List (List String)` of already-split
  rows (the `csv.reader(..., delimiter='\t')` loop in the source); a blank
  line yields the empty row `[]`, exactly as `csv.reader` yields `[]` there.
* Python `int` values are `ℤ`, `Decimal` values are `ℚ` (exact decimals embed
  into `ℚ`), and `float` values are modelled as `ℚ` (the claims under study do
  not depend on binary rounding of floats).
* Python exceptions abort the run; every fallible operation therefore returns
  `Except String _`, an uncaught exception being `.error`.
* `int(s)`, `Decimal(s)` and `float(s)` string conversions are modelled on the
  fragment of their grammar that sales and rate files contain: optional
  whitespace, an optional sign and a plain (possibly fractional for
  `Decimal`/`float`) base-10 numeral.  Exponent forms and the special values
  (`Infinity`, `NaN`) are outside the modelled fragment.
* Locale-dependent rendering (`locale.currency`, `strftime('%x')`) is
  abstracted to plain `toString`/identity rendering; the *validation* done by
  `datetime.strptime(s, "%m/%d/%Y")` is modelled faithfully (month 1-12, day
  within the month including leap years, year 1-9999, full-string match).
-/

namespace Slicer

/-- `nth l i` models Python list indexing `l[i]` as a partial lookup. -/
def nth {α : Type} : List α → Nat → Option α
  | [], _ => none
  | x :: _, 0 => some x
  | _ :: xs, n + 1 => nth xs n

/-- Replace the value at the first binding of key `k` (keeping its position),
or append a new binding; this is Python dict assignment `d[k] = v` for an
insertion-ordered association-list model of a dict. -/
def upsert {α : Type} : List (String × α) → String → α → List (String × α)
  | [], k, v => [(k, v)]
  | x :: xs, k, v => if x.1 = k then (k, v) :: xs else x :: upsert xs k v

/-- Python dict lookup `d.get(k)`: value at the first binding of `k`. -/
def assocFind {α : Type} : List (String × α) → String → Option α
  | [], _ => none
  | x :: xs, k => if x.1 = k then some x.2 else assocFind xs k

/-- Split a character list at every occurrence of the character `c`. -/
def splitOnChar (c : Char) : List Char → List (List Char)
  | [] => [[]]
  | x :: xs =>
    let r := splitOnChar c xs
    if x = c then [] :: r
    else
      match r with
      | [] => [[x]]
      | y :: ys => (x :: y) :: ys

/-- `needle` is an initial segment of `hay`. -/
def isPrefixL : List Char → List Char → Bool
  | [], _ => true
  | _ :: _, [] => false
  | n :: ns, h :: hs => n == h && isPrefixL ns hs

/-- Python substring containment `needle in hay`, on character lists. -/
def containsSubL (needle : List Char) : List Char → Bool
  | [] => isPrefixL needle []
  | h :: t => isPrefixL needle (h :: t) || containsSubL needle t

/-- Python `s.endswith(suffix)`, on character lists. -/
def endsWithL (suffix s : List Char) : Bool :=
  isPrefixL suffix.reverse s.reverse

/-- Strip leading and trailing whitespace, as Python numeric constructors do. -/
def trimChars (cs : List Char) : List Char :=
  ((cs.dropWhile Char.isWhitespace).reverse.dropWhile Char.isWhitespace).reverse

def allDigits (cs : List Char) : Bool := cs.all Char.isDigit

/-- Value of a base-10 digit string. -/
def digitsVal (cs : List Char) : Nat :=
  cs.foldl (fun a c => 10 * a + (c.toNat - 48)) 0

/-- Python `s.replace(',', '')`. -/
def removeCommas (s : String) : String :=
  ⟨s.data.filter (fun c => !(c == ','))⟩

/-- `true` exactly on `.error`; an uncaught Python exception. -/
def isErr {ε α : Type} : Except ε α → Bool
  | .error _ => true
  | .ok _ => false

/-- Core of Python `int(s)` after trimming: optional sign, nonempty digits. -/
def pyIntCore : List Char → Option ℤ
  | '-' :: rest => if rest ≠ [] ∧ allDigits rest then some (-(digitsVal rest : ℤ)) else none
  | '+' :: rest => if rest ≠ [] ∧ allDigits rest then some ((digitsVal rest : ℤ)) else none
  | cs => if cs ≠ [] ∧ allDigits cs then some ((digitsVal cs : ℤ)) else none

/-- Python `int(s)`: `ValueError` on anything but an optionally signed numeral. -/
def pyInt (s : String) : Except String ℤ :=
  match pyIntCore (trimChars s.data) with
  | some n => .ok n
  | none => .error ("ValueError: invalid literal for int with base 10: " ++ s)

/-- Unsigned decimal numeral `digits [. digits]` with at least one digit. -/
def decCore (cs : List Char) : Option ℚ :=
  let ip := cs.takeWhile (fun c => ¬ c = '.')
  match cs.drop ip.length with
  | [] => if ip ≠ [] ∧ allDigits ip then some ((digitsVal ip : ℚ)) else none
  | _ :: fp =>
    if (ip ≠ [] ∨ fp ≠ []) ∧ allDigits ip ∧ allDigits fp then
      some ((digitsVal ip : ℚ) + (digitsVal fp : ℚ) / (10 : ℚ) ^ fp.length)
    else none

/-- Optionally signed decimal numeral. -/
def pySignedDec (cs : List Char) : Option ℚ :=
  match cs with
  | '-' :: rest => (decCore rest).map Neg.neg
  | '+' :: rest => decCore rest
  | _ => decCore cs

/-- Python `Decimal(s)` on the modelled fragment of its grammar. -/
def pyDecimal (s : String) : Except String ℚ :=
  match pySignedDec (trimChars s.data) with
  | some q => .ok q
  | none => .error ("InvalidOperation: invalid literal for Decimal: " ++ s)

/-- Python `float(s)` on the modelled fragment of its grammar. -/
def pyFloat (s : String) : Except String ℚ :=
  match pySignedDec (trimChars s.data) with
  | some q => .ok q
  | none => .error ("ValueError: could not convert string to float: " ++ s)

/-- `pyInt` with default `0`; used only to state sums whose inputs are known
to parse (the default is never reached there). -/
def pyIntD (s : String) : ℤ :=
  match pyInt s with
  | .ok n => n
  | .error _ => 0

/-- `pyDecimal` with default `0`; see `pyIntD`. -/
def pyDecD (s : String) : ℚ :=
  match pyDecimal s with
  | .ok q => q
  | .error _ => 0

/-- `pyFloat ∘ removeCommas` with default `0`; see `pyIntD`. -/
def pyFloatD (s : String) : ℚ :=
  match pyFloat (removeCommas s) with
  | .ok q => q
  | .error _ => 0

/-- Gregorian leap year, as `datetime` uses. -/
def isLeap (y : Nat) : Bool :=
  y % 4 == 0 && (y % 100 != 0 || y % 400 == 0)

def daysInMonth (m y : Nat) : Nat :=
  if m = 2 then (if isLeap y then 29 else 28)
  else if m = 4 ∨ m = 6 ∨ m = 9 ∨ m = 11 then 30
  else 31

/-- A nonempty all-digit string of bounded length (the `%m`/`%d`/`%Y`
directives of `strptime` match 1-2, 1-2 and 1-4 digits respectively). -/
def validDigits (cs : List Char) (maxLen : Nat) : Bool :=
  decide (1 ≤ cs.length) && decide (cs.length ≤ maxLen) && allDigits cs

/-- `format_date` of the source: `datetime.strptime(s, "%m/%d/%Y")` followed by
locale rendering.  The validation (a `ValueError` aborts the run) is modelled
faithfully; the locale-specific rendering is abstracted to the identity. -/
def format_date (s : String) : Except String String :=
  match splitOnChar '/' s.data with
  | [ms, ds, ys] =>
    if validDigits ms 2 && validDigits ds 2 && validDigits ys 4 then
      let m := digitsVal ms
      let d := digitsVal ds
      let y := digitsVal ys
      if 1 ≤ m ∧ m ≤ 12 ∧ 1 ≤ d ∧ d ≤ daysInMonth m y ∧ 1 ≤ y then .ok s
      else .error ("ValueError: time data " ++ s ++ " does not match format")
    else .error ("ValueError: time data " ++ s ++ " does not match format")
  | _ => .error ("ValueError: time data " ++ s ++ " does not match format")

/-! ## Configuration constants of the script -/

/-- ISO code of the local currency into which foreign amounts are converted. -/
def local_currency : String := "EUR"

/-- Fixed name of the exchange-rate reference file. -/
def currency_data_filename : String := "currency_data.txt"

/-! ## `parse_currency_data` -/

/-- One step of the `parse_currency_data` loop: rows with at most 10 columns
are skipped; otherwise column 0 is the currency code, column 8 the exchange
rate (kept as a string, as in the source), and the withholding-tax factor is
`1.0 - abs(float(line[4].replace(',', '')) / float(line[3].replace(',', '')))`,
with Python's evaluation order (column 4 converted first, then column 3, then
the division, which raises `ZeroDivisionError` on a zero divisor). -/
def currencyStep (d : String → Option (String × ℚ)) (line : List String) :
    Except String (String → Option (String × ℚ)) :=
  if ¬ 10 < line.length then .ok d
  else
    let currency := (nth line 0).getD ""
    let exchange_rate := (nth line 8).getD ""
    match pyFloat (removeCommas ((nth line 4).getD "")) with
    | .error e => .error e
    | .ok v4 =>
      match pyFloat (removeCommas ((nth line 3).getD "")) with
      | .error e => .error e
      | .ok v3 =>
        if v3 = 0 then .error "ZeroDivisionError: float division by zero"
        else
          let withholding_tax_factor : ℚ := 1 - |v4 / v3|
          .ok (fun c => if c = currency then some (exchange_rate, withholding_tax_factor) else d c)

/-- `parse_currency_data` of the source, over the already-split rows of the
reference file: a mapping from currency code to (exchange-rate string,
withholding-tax factor). -/
def parse_currency_data (rows : List (List String)) :
    Except String (String → Option (String × ℚ)) :=
  rows.foldlM currencyStep (fun _ => none)

/-- The successful result of `parse_currency_data` (empty table on error);
`parse_currency_data rows = .ok (cdOf rows)` holds by `rfl` whenever parsing
succeeds. -/
def cdOf (rows : List (List String)) : String → Option (String × ℚ) :=
  match parse_currency_data rows with
  | .ok d => d
  | .error _ => fun _ => none

/-- Rows of the reference file that pass the `len(line) > 10` test. -/
def qualRows (rows : List (List String)) : List (List String) :=
  rows.filter (fun l => decide (10 < l.length))

/-- The last qualifying row whose column 0 equals `c` (later rows overwrite
earlier ones in the dict). -/
def lastQualFor (rows : List (List String)) (c : String) : Option (List String) :=
  (qualRows rows).foldl (fun acc l => if (nth l 0).getD "" = c then some l else acc) none

/-- The (rate, tax-factor) pair a qualifying row contributes. -/
def rateEntryOf (l : List String) : String × ℚ :=
  ((nth l 8).getD "", 1 - |pyFloatD ((nth l 4).getD "") / pyFloatD ((nth l 3).getD "")|)

/-! ## `parse_financial_reports` -/

/-- A report file: its name (from `os.listdir`) and its already-split rows. -/
structure RFile where
  name : String
  lines : List (List String)
deriving DecidableEq

/-- The state built by the `parse_financial_reports` loop: the
country → product → (quantity, amount) ledger, the country → currency map and
the date-range label.  The two dicts are an insertion-ordered association list
(the ledger, which is iterated later) and a lookup function (the currency map,
which is only ever looked up). -/
structure AggState where
  countries : List (String × List (String × (ℤ × ℚ)))
  currencies : String → Option String
  dateRange : Option String

def initAggState : AggState := ⟨[], fun _ => none, none⟩

/-- The file filter of the loop:
`if not filename.endswith('txt') or filename == currency_data_filename: continue`. -/
def isReportFile (fn : String) : Bool :=
  endsWithL "txt".data fn.data && !(fn == currency_data_filename)

/-- `"_WW." in filename`: the rest-of-world marker test. -/
def containsWW (fn : String) : Bool :=
  containsSubL "_WW.".data fn.data

/-- Python `line[i]`, raising `IndexError` when out of range. -/
def getField (l : List String) (i : Nat) : Except String String :=
  match nth l i with
  | some s => .ok s
  | none => .error "IndexError: list index out of range"

/-- The value of field `i`, defaulting to `""`; equal to the Python `line[i]`
whenever that access succeeds. -/
def fld (l : List String) (i : Nat) : String :=
  match getField l i with
  | .ok s => s
  | .error _ => ""

/-- `'/' in line[0]`: the test recognizing a data line. -/
def isDataLine (l : List String) : Bool :=
  (fld l 0).data.contains '/'

/-- Setting the date range from the first recognized data line:
`format_date(line[0]) + ' - ' + format_date(line[1])`, evaluated left to
right; later lines keep the first value. -/
def dateStep (dr : Option String) (l : List String) : Except String (Option String) :=
  match dr with
  | some d => .ok (some d)
  | none =>
    match getField l 0 with
    | .error e => .error e
    | .ok s0 =>
      match format_date s0 with
      | .error e => .error e
      | .ok d0 =>
        match getField l 1 with
        | .error e => .error e
        | .ok s1 =>
          match format_date s1 with
          | .error e => .error e
          | .ok d1 => .ok (some (d0 ++ " - " ++ d1))

/-- The ledger update of one data line:
`products = countries.get(countrycode, dict())`,
`quantity_and_amount = products.get(product, (0, Decimal(0)))`,
`products[product] = quantity_and_amount + (quantity, amount)`,
`countries[countrycode] = products`. -/
def updateCountries (countries : List (String × List (String × (ℤ × ℚ))))
    (cc pp : String) (q : ℤ) (a : ℚ) : List (String × List (String × (ℤ × ℚ))) :=
  let products := (assocFind countries cc).getD []
  let qa := (assocFind products pp).getD (0, 0)
  upsert countries cc (upsert products pp (qa.1 + q, qa.2 + a))

/-- The currency-map update of one data line: `currencies[countrycode] =
currency`, then, when the filename carries the `_WW.` marker,
`currencies[countrycode] = "USD - RoW"`. -/
def updateCurrencies (g : String → Option String) (fn cc cur : String) :
    String → Option String :=
  let g1 : String → Option String := fun c => if c = cc then some cur else g c
  if containsWW fn then (fun c => if c = cc then some "USD - RoW" else g1 c) else g1

/-- One line of one report file, mirroring the body of the inner loop of
`parse_financial_reports` (field accesses and conversions in source order). -/
def processLine (fn : String) (st : AggState) (l : List String) :
    Except String AggState :=
  match getField l 0 with
  | .error e => .error e
  | .ok f0 =>
    if (f0.data.contains '/') = false then .ok st
    else
      match dateStep st.dateRange l with
      | .error e => .error e
      | .ok dr =>
        match getField l 5 with
        | .error e => .error e
        | .ok s5 =>
        match pyInt s5 with
        | .error e => .error e
        | .ok quantity =>
        match getField l 7 with
        | .error e => .error e
        | .ok s7 =>
        match pyDecimal s7 with
        | .error e => .error e
        | .ok amount =>
        match getField l 8 with
        | .error e => .error e
        | .ok currency =>
        match getField l 12 with
        | .error e => .error e
        | .ok product =>
        match getField l 17 with
        | .error e => .error e
        | .ok countrycode =>
          .ok { countries := updateCountries st.countries countrycode product quantity amount,
                currencies := updateCurrencies st.currencies fn countrycode currency,
                dateRange := dr }

/-- One file of the outer loop: non-report files are skipped. -/
def processFileStep (st : AggState) (f : RFile) : Except String AggState :=
  if isReportFile f.name then f.lines.foldlM (processLine f.name) st else .ok st

/-- `parse_financial_reports` of the source, over the directory listing given
as a list of named files (in `os.listdir` order). -/
def parse_financial_reports (files : List RFile) : Except String AggState :=
  files.foldlM processFileStep initAggState

/-- The successful result of `parse_financial_reports` (initial state on
error); `parse_financial_reports files = .ok (aggOf files)` holds by `rfl`
whenever parsing succeeds. -/
def aggOf (files : List RFile) : AggState :=
  match parse_financial_reports files with
  | .ok st => st
  | .error _ => initAggState

/-- Ledger lookup with the dict defaults of the source:
`countries.get(c, dict()).get(p, (0, Decimal(0)))`. -/
def ledgerAt (countries : List (String × List (String × (ℤ × ℚ)))) (c p : String) :
    ℤ × ℚ :=
  (assocFind ((assocFind countries c).getD []) p).getD (0, 0)

/-- The (filename, row) pairs of the report files the loop actually reads. -/
def reportRows (files : List RFile) : List (String × List String) :=
  files.flatMap (fun f =>
    if isReportFile f.name then f.lines.map (fun l => (f.name, l)) else [])

/-- The (quantity, amount) a single row contributes at key `(c, p)`: its
parsed quantity and amount when it is a data row for that country and product,
`0` otherwise. -/
def lineContrib (c p : String) (l : List String) : ℤ × ℚ :=
  if isDataLine l = true ∧ fld l 17 = c ∧ fld l 12 = p
  then (pyIntD (fld l 5), pyDecD (fld l 7)) else 0

/-- The straight sum, over all rows of all processed report files, of the
quantities and amounts of the data rows with country `c` and product `p`. -/
def ledgerSum (c p : String) (files : List RFile) : ℤ × ℚ :=
  ((reportRows files).map (fun r => lineContrib c p r.2)).sum

/-- The currency a data row records for its country: `"USD - RoW"` when the
filename carries the `_WW.` marker, the row's column 8 otherwise. -/
def curWriteVal (fn : String) (l : List String) : String :=
  if containsWW fn then "USD - RoW" else fld l 8

/-- Last-write-wins fold of the currency map for country `c` over the
(filename, row) pairs of the processed report files. -/
def curFold (c : String) (rows : List (String × List String)) (init : Option String) :
    Option String :=
  rows.foldl (fun acc r =>
    if isDataLine r.2 = true ∧ fld r.2 17 = c then some (curWriteVal r.1 r.2) else acc) init

/-! ## `print_sales_by_corporation` -/

/-- `format_currency` of the source: locale-specific number rendering,
abstracted here to `toString` (no claim depends on the rendering). -/
def format_currency (q : ℚ) : String := toString q

/-- `local_currency.replace('EUR', '€')`, precomputed for the fixed constant. -/
def localCurrencySymbol : String := "€"

/-- Conversion of one product line (lines 152-158 of the source): an identity
exchange rate `Decimal('1.00000')` and the unmodified amount when the
country's currency already is the local currency; otherwise a lookup in the
rate table (`KeyError` aborts when the currency is absent), with
`amount * Decimal(exchange_rate) * Decimal(withholding_tax_factor)`.
Returns (exchange rate applied, amount in local currency). -/
def convertAmount (currency_data : String → Option (String × ℚ))
    (country_currency : String) (amount : ℚ) : Except String (ℚ × ℚ) :=
  if country_currency = local_currency then .ok (1, amount)
  else
    match currency_data country_currency with
    | none => .error ("KeyError: " ++ country_currency)
    | some rv =>
      match pyDecimal rv.1 with
      | .error e => .error e
      | .ok r => .ok (r, amount * r * rv.2)

/-- The printed line of one product. -/
def productLine (quantity : ℤ) (product country_currency : String)
    (amount exchange_rate amount_local : ℚ) : String :=
  "\t" ++ toString quantity ++ "\t" ++ product ++ "\t" ++ country_currency ++ " " ++
    format_currency amount ++ "\t" ++ toString exchange_rate ++ "\t" ++
    format_currency amount_local ++ " " ++ localCurrencySymbol

/-- One product of the innermost loop: convert, print the line, and add the
local-currency amount to the running corporation subtotal. -/
def processProduct (currency_data : String → Option (String × ℚ))
    (country_currency : String) (st : List String × ℚ) (pr : String × (ℤ × ℚ)) :
    Except String (List String × ℚ) :=
  match convertAmount currency_data country_currency pr.2.2 with
  | .error e => .error e
  | .ok rl =>
    .ok (st.1 ++ [productLine pr.2.1 pr.1 country_currency pr.2.2 rl.1 rl.2],
         st.2 + rl.2)

/-- One country of a corporation: `currencies[countrycode]` (a `KeyError`
aborts when the country has no recorded currency), the country header lines,
then every product sold there. -/
def processCountry (currency_data : String → Option (String × ℚ))
    (countryname : String → String) (currencies : String → Option String)
    (st : List String × ℚ) (entry : String × List (String × (ℤ × ℚ))) :
    Except String (List String × ℚ) :=
  match currencies entry.1 with
  | none => .error ("KeyError: " ++ entry.1)
  | some country_currency =>
    (entry.2).foldlM (processProduct currency_data country_currency)
      (st.1 ++ ["", "Sales in " ++ countryname entry.1 ++ " (" ++ entry.1 ++ ")",
                "\tQuantity\tProduct\tAmount\tExchange Rate\tAmount in " ++ local_currency],
       st.2)

/-- One corporation of the outer loop: its address header, its countries (the
subtotal starting at `Decimal(0)`), then the corporation total line. -/
def processCorp (currency_data : String → Option (String × ℚ))
    (countryname address : String → String) (currencies : String → Option String)
    (out : List String) (g : String × List (String × List (String × (ℤ × ℚ)))) :
    Except String (List String) :=
  match (g.2).foldlM (processCountry currency_data countryname currencies)
      (out ++ ["", "", address g.1], 0) with
  | .error e => .error e
  | .ok r =>
    .ok (r.1 ++ ["", g.1 ++ " Total:\t" ++ format_currency r.2 ++ " " ++ localCurrencySymbol])

/-- `corporations.setdefault(apple.corporation(country), {})[country] =
sales[country]` for one country. -/
def addToGroup {α : Type} (groups : List (String × List (String × α)))
    (corp country : String) (v : α) : List (String × List (String × α)) :=
  let inner := (assocFind groups corp).getD []
  upsert groups corp (upsert inner country v)

/-- The grouping loop of `print_sales_by_corporation`. -/
def groupByCorp {α : Type} (corporation : String → String) (sales : List (String × α)) :
    List (String × List (String × α)) :=
  sales.foldl (fun gs e => addToGroup gs (corporation e.1) e.1 e.2) []

/-- `print_sales_by_corporation` of the source.  The external `apple` module
(country → corporation, corporation → address, country → display name) is an
external collaborator, passed in as lookup functions.  The result is the list
of printed lines, or the uncaught exception aborting the run. -/
def print_sales_by_corporation (corporation address countryname : String → String)
    (currency_data : String → Option (String × ℚ))
    (sales : List (String × List (String × (ℤ × ℚ))))
    (currencies : String → Option String) : Except String (List String) :=
  (groupByCorp corporation sales).foldlM
    (processCorp currency_data countryname address currencies) []

/-! ## `__main__` -/

/-- Directory lookup of a file by name; `none` models the `IOError` of
`open` on a missing or unreadable file. -/
def findFile (dir : List RFile) (fn : String) : Option RFile :=
  dir.find? (fun f => f.name == fn)

/-- The guidance printed when the exchange-rate file cannot be opened
(lines 66-68 of the source). -/
def missingRateFileMsg : List String :=
  ["Exchange rates data file missing: \"" ++ currency_data_filename ++ "\"",
   "You can create this file by copy-pasting the listing under \"Earned / Paid on\" of iTunes Connect's \"Payments & Financial Reports > Payments\" page"]

/-- The `__main__` block, given the directory contents (the CLI-argument
checks are outside the modelled core): parse the rate file (exiting with code
1 and the guidance when it is missing, before any report file is read), parse
the reports, print the date line and the grouped sales.  Errors carry the
process exit code (1 both for `sys.exit(1)` and for an uncaught exception)
and the lines printed on the way out. -/
def main_run (corporation address countryname : String → String)
    (dir : List RFile) : Except (Nat × List String) (List String) :=
  match findFile dir currency_data_filename with
  | none => .error (1, missingRateFileMsg)
  | some f =>
    match parse_currency_data f.lines with
    | .error e => .error (1, [e])
    | .ok currency_data =>
      match parse_financial_reports dir with
      | .error e => .error (1, [e])
      | .ok st =>
        match st.dateRange with
        | none => .error (1, ["TypeError: cannot concatenate str and NoneType"])
        | some dr =>
          match print_sales_by_corporation corporation address countryname
              currency_data st.countries st.currencies with
          | .error e => .error (1, [e])
          | .ok lines => .ok (("Sales date: " ++ dr) :: lines)

/-! ## Spec-side definition (for the refinement comparison of claim C8) -/

/-- The spec's words: a report file is "any `*.txt` file", i.e. its name has
the `.txt` extension. -/
def specHasTxtExtension (fn : String) : Bool :=
  endsWithL ".txt".data fn.data

/-! ## Concrete fixtures used by witnesses and counterexamples -/

/-- A data row of a report file (18 fields, indices 0-17): sale of 2 units of
product `APP1` for `9.99` EUR in France. -/
def wRowFR : List String :=
  ["1/1/2020", "1/31/2020", "x", "x", "x", "2", "x", "9.99", "EUR", "x", "x", "x",
   "APP1", "x", "x", "x", "x", "FR"]

/-- Sale of 5 units of product `APP2` for `500` JPY in Japan. -/
def wRowJP : List String :=
  ["1/1/2020", "1/31/2020", "x", "x", "x", "5", "x", "500", "JPY", "x", "x", "x",
   "APP2", "x", "x", "x", "x", "JP"]

/-- Sale of 4 units in Canada, currency field reading plain `USD`. -/
def wRowCA : List String :=
  ["1/1/2020", "1/31/2020", "x", "x", "x", "4", "x", "12.00", "USD", "x", "x", "x",
   "APP1", "x", "x", "x", "x", "CA"]

/-- A data row whose quantity field `2x` does not parse as an integer. -/
def wRowBadQty : List String :=
  ["1/1/2020", "1/31/2020", "x", "x", "x", "2x", "x", "9.99", "EUR", "x", "x", "x",
   "APP1", "x", "x", "x", "x", "FR"]

def wFileA : RFile := ⟨"report_a.txt", [["Total_Rows", "2"], wRowFR, wRowFR]⟩

def wFileB : RFile := ⟨"report_b.txt", [wRowJP]⟩

/-- A report file carrying the rest-of-world `_WW.` marker. -/
def wFileWW : RFile := ⟨"report_1_WW.txt", [wRowCA]⟩

def wFileBad : RFile := ⟨"report_bad.txt", [wRowBadQty]⟩

/-- A file whose name ends in `txt` without having the `.txt` extension. -/
def c8File : RFile := ⟨"reportstxt", [wRowFR]⟩

/-- An aggregated-sales dict with one country and one product. -/
def wSalesJP : List (String × List (String × (ℤ × ℚ))) :=
  [("JP", [("APPX", (3, 500))])]

def wCurrenciesJP : String → Option String :=
  fun c => if c = "JP" then some "JPY" else none

/-- Rate row: currency `USD`, columns 3/4 giving tax factor `1/2`, rate `1.1`. -/
def c4Row1 : List String := ["USD", "x", "x", "2", "1", "x", "x", "x", "1.1", "x", "x"]

/-- Second rate row for the same `USD` currency code, rate `2.0`. -/
def c4Row2 : List String := ["USD", "x", "x", "4", "1", "x", "x", "x", "2.0", "x", "x"]

/-- A rate row with exactly 10 columns (one short of the threshold). -/
def c4Row10 : List String := ["XXX", "x", "x", "2", "1", "x", "x", "x", "9.9", "x"]

def c4RowsDup : List (List String) := [c4Row1, c4Row2]

def c4RowsW : List (List String) := [c4Row1, c4Row10]

/-- A qualifying rate row whose column 3 (the divisor) is zero. -/
def c10ZeroRow : List String := ["JPY", "x", "x", "0", "1", "x", "x", "x", "1.1", "x", "x"]

/-- A qualifying rate row whose column 3 is not numeric. -/
def c10BadRow : List String := ["GBP", "x", "x", "abc", "1", "x", "x", "x", "1.1", "x", "x"]

/-! ## Basic lemmas -/

@[simp] theorem exceptBind_ok {α β : Type} (a : α) (f : α → Except String β) :
    (Except.ok a >>= f) = f a := rfl

@[simp] theorem exceptBind_err {α β : Type} (e : String) (f : α → Except String β) :
    ((Except.error e : Except String α) >>= f) = Except.error e := rfl

@[simp] theorem foldlM_nilE {σ α : Type} (f : σ → α → Except String σ) (s : σ) :
    List.foldlM f s ([] : List α) = .ok s := rfl

@[simp] theorem foldlM_consE {σ α : Type} (f : σ → α → Except String σ) (s : σ)
    (a : α) (l : List α) :
    List.foldlM f s (a :: l) = f s a >>= fun s2 => List.foldlM f s2 l := rfl

@[simp] theorem isErr_err {α : Type} (e : String) :
    isErr (Except.error e : Except String α) = true := rfl

@[simp] theorem isErr_ok {α : Type} (a : α) :
    isErr (Except.ok a : Except String α) = false := rfl

theorem isErr_exists {α : Type} {x : Except String α} (h : isErr x = true) :
    ∃ e, x = .error e := by
  cases x with
  | error e => exact ⟨e, rfl⟩
  | ok a => simp [isErr] at h

/-- If one element of the list makes the step fail whatever the state, the
whole monadic fold fails. -/
theorem foldlM_isErr {σ α : Type} (step : σ → α → Except String σ) (x : α)
    (hf : ∀ s, isErr (step s x) = true) :
    ∀ (xs : List α), x ∈ xs → ∀ s, isErr (List.foldlM step s xs) = true := by
  intro xs
  induction xs with
  | nil => intro h; cases h
  | cons a t ih =>
    intro hmem s
    rw [foldlM_consE]
    cases hstep : step s a with
    | error e => simp
    | ok s2 =>
      rcases List.mem_cons.mp hmem with heq | ht
      · have h2 := hf s
        rw [heq, hstep] at h2
        simp at h2
      · simpa using ih ht s2

/-! ### Association-list lemmas -/

@[simp] theorem assocFind_upsert_self {α : Type} (k : String) (v : α) :
    ∀ l : List (String × α), assocFind (upsert l k v) k = some v := by
  intro l
  induction l with
  | nil => simp [upsert, assocFind]
  | cons x xs ih =>
    by_cases h : x.1 = k
    · simp only [upsert, if_pos h, assocFind, if_pos rfl, if_true]
    · simp only [upsert, if_neg h, assocFind, if_neg h, ih]

theorem assocFind_upsert_ne {α : Type} (k c : String) (v : α) (hck : c ≠ k) :
    ∀ l : List (String × α), assocFind (upsert l k v) c = assocFind l c := by
  intro l
  have hkc : k ≠ c := fun h => hck h.symm
  induction l with
  | nil => simp only [upsert, assocFind, if_neg hkc]
  | cons x xs ih =>
    by_cases h : x.1 = k
    · have hxc : x.1 ≠ c := fun hh => hkc (h ▸ hh)
      simp only [upsert, if_pos h, assocFind, if_neg hkc, if_neg hxc]
    · simp only [upsert, if_neg h, assocFind, ih]

theorem mem_upsert_self {α : Type} (k : String) (v : α) :
    ∀ l : List (String × α), (k, v) ∈ upsert l k v := by
  intro l
  induction l with
  | nil => exact List.mem_singleton.mpr rfl
  | cons x xs ih =>
    by_cases h : x.1 = k
    · simp only [upsert, if_pos h]
      exact List.mem_cons_self _ _
    · simp only [upsert, if_neg h]
      exact List.mem_cons_of_mem _ ih

theorem mem_upsert_of_ne {α : Type} {e : String × α} {l : List (String × α)}
    {k : String} (v : α) (hmem : e ∈ l) (hne : e.1 ≠ k) : e ∈ upsert l k v := by
  induction l with
  | nil => cases hmem
  | cons x xs ih =>
    by_cases h : x.1 = k
    · simp only [upsert, if_pos h]
      cases hmem with
      | head => exact absurd h hne
      | tail _ ht => exact List.mem_cons_of_mem _ ht
    · simp only [upsert, if_neg h]
      cases hmem with
      | head => exact List.mem_cons_self _ _
      | tail _ ht => exact List.mem_cons_of_mem _ (ih ht)

theorem keys_upsert_subset {α : Type} {k c : String} (v : α) :
    ∀ l : List (String × α), c ∈ (upsert l k v).map Prod.fst →
      c ∈ l.map Prod.fst ∨ c = k := by
  intro l
  induction l with
  | nil =>
    intro h
    exact Or.inr (List.mem_singleton.mp h)
  | cons x xs ih =>
    by_cases h : x.1 = k
    · simp only [upsert, if_pos h, List.map_cons]
      intro hc
      rcases List.mem_cons.mp hc with heq | hh
      · exact Or.inr heq
      · exact Or.inl (List.mem_cons_of_mem _ hh)
    · simp only [upsert, if_neg h, List.map_cons]
      intro hc
      rcases List.mem_cons.mp hc with heq | hh
      · exact Or.inl (heq ▸ List.mem_cons_self _ _)
      · rcases ih hh with h1 | h2
        · exact Or.inl (List.mem_cons_of_mem _ h1)
        · exact Or.inr h2

theorem nodup_keys_upsert {α : Type} (k : String) (v : α) :
    ∀ l : List (String × α), (l.map Prod.fst).Nodup →
      ((upsert l k v).map Prod.fst).Nodup := by
  intro l
  induction l with
  | nil => intro _; exact List.nodup_singleton k
  | cons x xs ih =>
    intro hnd
    rw [List.map_cons, List.nodup_cons] at hnd
    by_cases h : x.1 = k
    · simp only [upsert, if_pos h, List.map_cons, List.nodup_cons]
      exact ⟨h ▸ hnd.1, hnd.2⟩
    · simp only [upsert, if_neg h, List.map_cons, List.nodup_cons]
      refine ⟨?_, ih hnd.2⟩
      intro hc
      rcases keys_upsert_subset v xs hc with h1 | h2
      · exact hnd.1 h1
      · exact h h2

theorem assocFind_of_mem_nodup {α : Type} {e : String × α} :
    ∀ l : List (String × α), e ∈ l → (l.map Prod.fst).Nodup →
      assocFind l e.1 = some e.2 := by
  intro l
  induction l with
  | nil => intro h; cases h
  | cons x xs ih =>
    intro hmem hnd
    rw [List.map_cons, List.nodup_cons] at hnd
    cases hmem with
    | head => simp only [assocFind, if_pos rfl, if_true]
    | tail _ ht =>
      have hne : x.1 ≠ e.1 := by
        intro hc
        exact hnd.1 (hc ▸ List.mem_map_of_mem Prod.fst ht)
      simp only [assocFind, if_neg hne]
      exact ih ht hnd.2

/-! ### Field-access lemmas -/

theorem fld_of_getField {l : List String} {i : Nat} {s : String}
    (h : getField l i = .ok s) : fld l i = s := by
  unfold fld
  rw [h]

theorem isDataLine_cons (x : String) (xs : List String) :
    isDataLine (x :: xs) = x.data.contains '/' := rfl

theorem isDataLine_nil : isDataLine [] = false := rfl

/-! ### Inversion of one successful line of `parse_financial_reports` -/

theorem processLine_ok_cases {fn : String} {st : AggState} {l : List String}
    {st2 : AggState} (h : processLine fn st l = .ok st2) :
    (isDataLine l = false ∧ st2 = st) ∨
    (isDataLine l = true ∧ ∃ q a,
      pyInt (fld l 5) = .ok q ∧ pyDecimal (fld l 7) = .ok a ∧
      st2.countries = updateCountries st.countries (fld l 17) (fld l 12) q a ∧
      st2.currencies = updateCurrencies st.currencies fn (fld l 17) (fld l 8)) := by
  cases l with
  | nil => simp [processLine, getField, nth] at h
  | cons x xs =>
    have hf0 : getField (x :: xs) 0 = .ok x := rfl
    unfold processLine at h
    simp only [hf0] at h
    by_cases hd : (x.data.contains '/') = false
    · rw [if_pos hd] at h
      refine Or.inl ⟨by rw [isDataLine_cons]; exact hd, ?_⟩
      cases h
      rfl
    · rw [if_neg hd] at h
      refine Or.inr ⟨by rw [isDataLine_cons]; exact Bool.not_eq_false _ ▸ hd, ?_⟩
      cases hds : dateStep st.dateRange (x :: xs) with
      | error e => simp only [hds] at h; exact Except.noConfusion h
      | ok dr =>
      simp only [hds] at h
      cases h5 : getField (x :: xs) 5 with
      | error e => simp only [h5] at h; exact Except.noConfusion h
      | ok s5 =>
      simp only [h5] at h
      cases hq : pyInt s5 with
      | error e => simp only [hq] at h; exact Except.noConfusion h
      | ok q =>
      simp only [hq] at h
      cases h7 : getField (x :: xs) 7 with
      | error e => simp only [h7] at h; exact Except.noConfusion h
      | ok s7 =>
      simp only [h7] at h
      cases ha : pyDecimal s7 with
      | error e => simp only [ha] at h; exact Except.noConfusion h
      | ok a =>
      simp only [ha] at h
      cases h8 : getField (x :: xs) 8 with
      | error e => simp only [h8] at h; exact Except.noConfusion h
      | ok s8 =>
      simp only [h8] at h
      cases h12 : getField (x :: xs) 12 with
      | error e => simp only [h12] at h; exact Except.noConfusion h
      | ok s12 =>
      simp only [h12] at h
      cases h17 : getField (x :: xs) 17 with
      | error e => simp only [h17] at h; exact Except.noConfusion h
      | ok s17 =>
      simp only [h17] at h
      cases h
      refine ⟨q, a, ?_, ?_, ?_, ?_⟩
      · rw [fld_of_getField h5]; exact hq
      · rw [fld_of_getField h7]; exact ha
      · rw [fld_of_getField h17, fld_of_getField h12]
      · rw [fld_of_getField h17, fld_of_getField h8]

/-! ### Pointwise effect of the two dict updates -/

theorem ledgerAt_update (countries : List (String × List (String × (ℤ × ℚ))))
    (cc pp c p : String) (q : ℤ) (a : ℚ) :
    ledgerAt (updateCountries countries cc pp q a) c p =
      ledgerAt countries c p + (if c = cc ∧ p = pp then ((q, a) : ℤ × ℚ) else 0) := by
  unfold updateCountries ledgerAt
  by_cases hc : c = cc
  · subst hc
    rw [assocFind_upsert_self, Option.getD_some]
    by_cases hp : p = pp
    · subst hp
      rw [if_pos ⟨rfl, rfl⟩, assocFind_upsert_self, Option.getD_some, Prod.add_def]
    · rw [if_neg (fun hh => hp hh.2), assocFind_upsert_ne _ _ _ hp, add_zero]
  · rw [if_neg (fun hh => hc hh.1), assocFind_upsert_ne _ _ _ hc, add_zero]

theorem updateCurrencies_at (g : String → Option String) (fn cc cur c : String) :
    updateCurrencies g fn cc cur c =
      if c = cc then some (if containsWW fn then "USD - RoW" else cur) else g c := by
  unfold updateCurrencies
  by_cases hw : containsWW fn = true
  · by_cases hc : c = cc <;> simp [hw, hc]
  · rw [Bool.not_eq_true] at hw
    by_cases hc : c = cc <;> simp [hw, hc]

theorem pyIntD_of_ok {s : String} {q : ℤ} (h : pyInt s = .ok q) : pyIntD s = q := by
  unfold pyIntD
  rw [h]

theorem pyDecD_of_ok {s : String} {a : ℚ} (h : pyDecimal s = .ok a) : pyDecD s = a := by
  unfold pyDecD
  rw [h]

/-! ### The ledger after a successful run is a straight sum -/

theorem aggLinesLedger (fn c p : String) :
    ∀ (lines : List (List String)) (st st2 : AggState),
      List.foldlM (processLine fn) st lines = .ok st2 →
      ledgerAt st2.countries c p =
        ledgerAt st.countries c p + (lines.map (lineContrib c p)).sum := by
  intro lines
  induction lines with
  | nil =>
    intro st st2 h
    rw [foldlM_nilE] at h
    cases h
    simp
  | cons l ls ih =>
    intro st st2 h
    rw [foldlM_consE] at h
    cases hstep : processLine fn st l with
    | error e => rw [hstep] at h; exact absurd h (by simp)
    | ok st1 =>
      rw [hstep, exceptBind_ok] at h
      have hrec := ih st1 st2 h
      rw [List.map_cons, List.sum_cons]
      rcases processLine_ok_cases hstep with ⟨hnd, rfl⟩ | ⟨hdl, q, a, hq, ha, hcu, _⟩
      · have hz : lineContrib c p l = 0 := by
          unfold lineContrib
          rw [if_neg]
          intro hh
          rw [hnd] at hh
          exact Bool.noConfusion hh.1
        rw [hrec, hz, zero_add]
      · rw [hrec, hcu, ledgerAt_update]
        have h1 : pyIntD (fld l 5) = q := pyIntD_of_ok hq
        have h2 : pyDecD (fld l 7) = a := pyDecD_of_ok ha
        by_cases hcp : c = fld l 17 ∧ p = fld l 12
        · have hl : lineContrib c p l = (q, a) := by
            unfold lineContrib
            rw [if_pos ⟨hdl, hcp.1.symm, hcp.2.symm⟩, h1, h2]
          rw [if_pos hcp, hl, add_assoc]
        · have hl : lineContrib c p l = 0 := by
            unfold lineContrib
            rw [if_neg]
            intro hh
            exact hcp ⟨hh.2.1.symm, hh.2.2.symm⟩
          rw [if_neg hcp, hl, add_assoc]

theorem aggFilesLedger (c p : String) :
    ∀ (files : List RFile) (st st2 : AggState),
      List.foldlM processFileStep st files = .ok st2 →
      ledgerAt st2.countries c p =
        ledgerAt st.countries c p +
          ((reportRows files).map (fun r => lineContrib c p r.2)).sum := by
  intro files
  induction files with
  | nil =>
    intro st st2 h
    rw [foldlM_nilE] at h
    cases h
    simp [reportRows]
  | cons f fs ih =>
    intro st st2 h
    rw [foldlM_consE] at h
    cases hstep : processFileStep st f with
    | error e => rw [hstep] at h; exact absurd h (by simp)
    | ok st1 =>
      rw [hstep, exceptBind_ok] at h
      have hrec := ih st1 st2 h
      unfold processFileStep at hstep
      by_cases hr : isReportFile f.name = true
      · rw [if_pos hr] at hstep
        have hlines := aggLinesLedger f.name c p f.lines st st1 hstep
        have hrr : reportRows (f :: fs) =
            (f.lines.map (fun l => (f.name, l))) ++ reportRows fs := by
          unfold reportRows
          rw [List.flatMap_cons, if_pos hr]
        rw [hrec, hlines, hrr, List.map_append, List.sum_append, List.map_map]
        have hmm : ((fun r : String × List String => lineContrib c p r.2) ∘
            (fun l => (f.name, l))) = lineContrib c p := rfl
        rw [hmm, add_assoc]
      · rw [if_neg hr] at hstep
        cases hstep
        have hrr : reportRows (f :: fs) = reportRows fs := by
          unfold reportRows
          rw [List.flatMap_cons, if_neg hr, List.nil_append]
        rw [hrec, hrr]

/-- After a successful `parse_financial_reports`, the ledger holds at every
(country, product) key exactly the straight sum of the matching data rows. -/
theorem parse_ledger_sum {files : List RFile} {st2 : AggState}
    (h : parse_financial_reports files = .ok st2) (c p : String) :
    ledgerAt st2.countries c p = ledgerSum c p files := by
  have hh := aggFilesLedger c p files initAggState st2 h
  rw [hh]
  unfold ledgerSum initAggState
  rw [show ledgerAt [] c p = 0 from rfl, zero_add]

/-! ### The currency map after a successful run is a last-write fold -/

theorem aggLinesCur (fn c : String) :
    ∀ (lines : List (List String)) (st st2 : AggState),
      List.foldlM (processLine fn) st lines = .ok st2 →
      st2.currencies c = lines.foldl (fun acc l =>
        if isDataLine l = true ∧ fld l 17 = c then some (curWriteVal fn l) else acc)
        (st.currencies c) := by
  intro lines
  induction lines with
  | nil =>
    intro st st2 h
    rw [foldlM_nilE] at h
    cases h
    rfl
  | cons l ls ih =>
    intro st st2 h
    rw [foldlM_consE] at h
    cases hstep : processLine fn st l with
    | error e => rw [hstep] at h; exact absurd h (by simp)
    | ok st1 =>
      rw [hstep, exceptBind_ok] at h
      have hrec := ih st1 st2 h
      rw [List.foldl_cons, hrec]
      rcases processLine_ok_cases hstep with ⟨hnd, rfl⟩ | ⟨hdl, q, a, _, _, _, hcur⟩
      · rw [if_neg]
        intro hh
        rw [hnd] at hh
        exact Bool.noConfusion hh.1
      · have hinit : updateCurrencies st.currencies fn (fld l 17) (fld l 8) c =
            (if isDataLine l = true ∧ fld l 17 = c
              then some (curWriteVal fn l) else st.currencies c) := by
          rw [updateCurrencies_at]
          by_cases hc : fld l 17 = c
          · rw [if_pos hc.symm, if_pos (And.intro hdl hc)]
            rfl
          · rw [if_neg (fun hh => hc hh.symm), if_neg (fun hh => hc hh.2)]
        rw [hcur, hinit]

theorem aggFilesCur (c : String) :
    ∀ (files : List RFile) (st st2 : AggState),
      List.foldlM processFileStep st files = .ok st2 →
      st2.currencies c = curFold c (reportRows files) (st.currencies c) := by
  intro files
  induction files with
  | nil =>
    intro st st2 h
    rw [foldlM_nilE] at h
    cases h
    rfl
  | cons f fs ih =>
    intro st st2 h
    rw [foldlM_consE] at h
    cases hstep : processFileStep st f with
    | error e => rw [hstep] at h; exact absurd h (by simp)
    | ok st1 =>
      rw [hstep, exceptBind_ok] at h
      have hrec := ih st1 st2 h
      unfold processFileStep at hstep
      by_cases hr : isReportFile f.name = true
      · rw [if_pos hr] at hstep
        have hlines := aggLinesCur f.name c f.lines st st1 hstep
        have hrr : reportRows (f :: fs) =
            (f.lines.map (fun l => (f.name, l))) ++ reportRows fs := by
          unfold reportRows
          rw [List.flatMap_cons, if_pos hr]
        rw [hrec, hrr]
        unfold curFold
        rw [List.foldl_append, List.foldl_map]
        rw [hlines]
      · rw [if_neg hr] at hstep
        cases hstep
        have hrr : reportRows (f :: fs) = reportRows fs := by
          unfold reportRows
          rw [List.flatMap_cons, if_neg hr, List.nil_append]
        rw [hrec, hrr]

/-- After a successful `parse_financial_reports`, the currency a country maps
to is the last value written by a data row for that country. -/
theorem parse_currencies_fold {files : List RFile} {st2 : AggState}
    (h : parse_financial_reports files = .ok st2) (c : String) :
    st2.currencies c = curFold c (reportRows files) none := by
  exact aggFilesCur c files initAggState st2 h

/-! ### Last-write fold lemmas for the currency map -/

theorem curFold_no_match (c : String) :
    ∀ (rows : List (String × List String)) (init : Option String),
      (∀ r ∈ rows, ¬(isDataLine r.2 = true ∧ fld r.2 17 = c)) →
      curFold c rows init = init := by
  intro rows
  induction rows with
  | nil => intro init _; rfl
  | cons r rs ih =>
    intro init hnone
    unfold curFold
    rw [List.foldl_cons, if_neg (hnone r (List.mem_cons_self _ _))]
    exact ih init (fun x hx => hnone x (List.mem_cons_of_mem _ hx))

theorem curFold_const (c v : String) :
    ∀ (rows : List (String × List String)) (init : Option String),
      (∀ r ∈ rows, isDataLine r.2 = true → fld r.2 17 = c → curWriteVal r.1 r.2 = v) →
      (∃ r ∈ rows, isDataLine r.2 = true ∧ fld r.2 17 = c) →
      curFold c rows init = some v := by
  intro rows
  induction rows with
  | nil =>
    intro init _ hex
    rcases hex with ⟨r, hr, _⟩
    cases hr
  | cons r rs ih =>
    intro init hall hex
    unfold curFold
    rw [List.foldl_cons]
    by_cases hm : isDataLine r.2 = true ∧ fld r.2 17 = c
    · rw [if_pos hm]
      by_cases hex2 : ∃ x ∈ rs, isDataLine x.2 = true ∧ fld x.2 17 = c
      · exact ih _ (fun x hx => hall x (List.mem_cons_of_mem _ hx)) hex2
      · have hnone : ∀ x ∈ rs, ¬(isDataLine x.2 = true ∧ fld x.2 17 = c) := by
          intro x hx hc
          exact hex2 ⟨x, hx, hc⟩
        rw [show List.foldl _ (some (curWriteVal r.1 r.2)) rs =
              curFold c rs (some (curWriteVal r.1 r.2)) from rfl,
            curFold_no_match c rs _ hnone,
            hall r (List.mem_cons_self _ _) hm.1 hm.2]
    · rw [if_neg hm]
      rcases hex with ⟨x, hx, hc⟩
      rcases List.mem_cons.mp hx with heq | hxs
      · exact absurd (heq ▸ hc) hm
      · exact ih _ (fun y hy => hall y (List.mem_cons_of_mem _ hy)) ⟨x, hxs, hc⟩

/-! ### Membership in `reportRows` -/

theorem mem_reportRows_intro {files : List RFile} {f : RFile} {l : List String}
    (hf : f ∈ files) (hr : isReportFile f.name = true) (hl : l ∈ f.lines) :
    (f.name, l) ∈ reportRows files := by
  unfold reportRows
  refine List.mem_flatMap.mpr ⟨f, hf, ?_⟩
  rw [if_pos hr]
  exact List.mem_map_of_mem _ hl

theorem mem_reportRows_elim {files : List RFile} {r : String × List String}
    (h : r ∈ reportRows files) :
    ∃ f ∈ files, isReportFile f.name = true ∧ r.1 = f.name ∧ r.2 ∈ f.lines := by
  unfold reportRows at h
  rcases List.mem_flatMap.mp h with ⟨f, hf, hr⟩
  by_cases hrep : isReportFile f.name = true
  · rw [if_pos hrep] at hr
    rcases List.mem_map.mp hr with ⟨l, hl, hpair⟩
    refine ⟨f, hf, hrep, ?_, ?_⟩
    · rw [← hpair]
    · rw [← hpair]; exact hl
  · rw [if_neg hrep] at hr
    cases hr

/-! ### Permutation invariance of the straight sum -/

theorem reportRows_perm {files files2 : List RFile} (h : files.Perm files2) :
    (reportRows files).Perm (reportRows files2) :=
  h.flatMap_right _

theorem ledgerSum_perm (c p : String) {files files2 : List RFile}
    (h : files.Perm files2) : ledgerSum c p files = ledgerSum c p files2 :=
  List.Perm.sum_eq ((reportRows_perm h).map _)

/-! ### A data line with an unparsable quantity or amount always aborts -/

theorem processLine_errs {l : List String} (hd : isDataLine l = true)
    (hbad : isErr (pyInt (fld l 5)) = true ∨ isErr (pyDecimal (fld l 7)) = true) :
    ∀ (fn : String) (st : AggState), isErr (processLine fn st l) = true := by
  intro fn st
  cases l with
  | nil => rw [isDataLine_nil] at hd; exact Bool.noConfusion hd
  | cons x xs =>
    have hf0 : getField (x :: xs) 0 = .ok x := rfl
    rw [isDataLine_cons] at hd
    unfold processLine
    rw [hf0]
    simp only
    rw [if_neg (by rw [hd]; exact fun hh => Bool.noConfusion hh)]
    cases hds : dateStep st.dateRange (x :: xs) with
    | error e => simp
    | ok dr =>
    simp only
    cases h5 : getField (x :: xs) 5 with
    | error e => simp
    | ok s5 =>
    simp only
    cases hq : pyInt s5 with
    | error e => simp
    | ok q =>
    rcases hbad with hbad | hbad
    · rw [fld_of_getField h5, hq] at hbad
      exact Bool.noConfusion hbad
    · simp only
      cases h7 : getField (x :: xs) 7 with
      | error e => simp
      | ok s7 =>
      simp only
      cases ha : pyDecimal s7 with
      | error e => simp
      | ok a =>
      rw [fld_of_getField h7, ha] at hbad
      exact Bool.noConfusion hbad

/-! ### Non-report files do not contribute -/

theorem foldFiles_filter :
    ∀ (files : List RFile) (st : AggState),
      List.foldlM processFileStep st files =
        List.foldlM processFileStep st (files.filter (fun f => isReportFile f.name)) := by
  intro files
  induction files with
  | nil => intro st; rfl
  | cons f fs ih =>
    intro st
    by_cases hr : isReportFile f.name = true
    · have hfc : List.filter (fun g => isReportFile g.name) (f :: fs) =
          f :: List.filter (fun g => isReportFile g.name) fs := by
        simp [List.filter_cons, hr]
      rw [hfc, foldlM_consE, foldlM_consE]
      cases hstep : processFileStep st f with
      | error e => simp
      | ok st1 => simp only [exceptBind_ok]; exact ih st1
    · have hfc : List.filter (fun g => isReportFile g.name) (f :: fs) =
          List.filter (fun g => isReportFile g.name) fs := by
        simp [List.filter_cons, hr]
      rw [hfc, foldlM_consE]
      have hstep : processFileStep st f = .ok st := by
        unfold processFileStep
        rw [if_neg hr]
      rw [hstep, exceptBind_ok]
      exact ih st

/-! ### Membership after grouping by corporation -/

theorem mem_addToGroup_self {α : Type} (groups : List (String × List (String × α)))
    (corp country : String) (v : α) :
    ∃ gl, (corp, gl) ∈ addToGroup groups corp country v ∧ (country, v) ∈ gl := by
  refine ⟨upsert ((assocFind groups corp).getD []) country v, ?_, ?_⟩
  · unfold addToGroup
    exact mem_upsert_self _ _ _
  · exact mem_upsert_self _ _ _

theorem addToGroup_preserves {α : Type} {groups : List (String × List (String × α))}
    {g : String × List (String × α)} {e : String × α}
    (hg : g ∈ groups) (he : e ∈ g.2) (hnd : (groups.map Prod.fst).Nodup)
    {corp country : String} {v : α} (hne : e.1 ≠ country) :
    ∃ g2, g2 ∈ addToGroup groups corp country v ∧ e ∈ g2.2 := by
  by_cases hc : g.1 = corp
  · have hfind : assocFind groups corp = some g.2 := by
      rw [← hc]
      exact assocFind_of_mem_nodup groups hg hnd
    refine ⟨(corp, upsert ((assocFind groups corp).getD []) country v), ?_, ?_⟩
    · unfold addToGroup
      exact mem_upsert_self _ _ _
    · rw [hfind, Option.getD_some]
      exact mem_upsert_of_ne v he hne
  · refine ⟨g, ?_, he⟩
    unfold addToGroup
    exact mem_upsert_of_ne _ hg hc

theorem addToGroup_nodup {α : Type} (groups : List (String × List (String × α)))
    (corp country : String) (v : α) (hnd : (groups.map Prod.fst).Nodup) :
    ((addToGroup groups corp country v).map Prod.fst).Nodup :=
  nodup_keys_upsert _ _ _ hnd

theorem groupFold_preserve {α : Type} (corporation : String → String) :
    ∀ (sales : List (String × α)) (groups : List (String × List (String × α)))
      (e : String × α),
      (groups.map Prod.fst).Nodup →
      (∃ g ∈ groups, e ∈ g.2) →
      (∀ x ∈ sales, x.1 ≠ e.1) →
      ∃ g2 ∈ sales.foldl (fun gs x => addToGroup gs (corporation x.1) x.1 x.2) groups,
        e ∈ g2.2 := by
  intro sales
  induction sales with
  | nil =>
    intro groups e _ hmem _
    exact hmem
  | cons x xs ih =>
    intro groups e hnd hmem hkeys
    rcases hmem with ⟨g, hg, he⟩
    rw [List.foldl_cons]
    have hne : e.1 ≠ x.1 := fun hh => hkeys x (List.mem_cons_self _ _) hh.symm
    rcases @addToGroup_preserves α groups g e hg he hnd (corporation x.1) x.1 x.2 hne
      with ⟨g2, hg2, he2⟩
    exact ih _ e (addToGroup_nodup _ _ _ _ hnd) ⟨g2, hg2, he2⟩
      (fun y hy => hkeys y (List.mem_cons_of_mem _ hy))

theorem mem_groupFold {α : Type} (corporation : String → String) :
    ∀ (sales : List (String × α)) (groups : List (String × List (String × α)))
      (e : String × α),
      (groups.map Prod.fst).Nodup →
      e ∈ sales → (sales.map Prod.fst).Nodup →
      ∃ g2 ∈ sales.foldl (fun gs x => addToGroup gs (corporation x.1) x.1 x.2) groups,
        e ∈ g2.2 := by
  intro sales
  induction sales with
  | nil =>
    intro groups e _ he _
    cases he
  | cons x xs ih =>
    intro groups e hnd he hsnd
    rw [List.map_cons, List.nodup_cons] at hsnd
    rw [List.foldl_cons]
    rcases List.mem_cons.mp he with heq | hxs
    · subst heq
      rcases mem_addToGroup_self groups (corporation e.1) e.1 e.2 with ⟨gl, hgl, hegl⟩
      refine groupFold_preserve corporation xs _ e
        (addToGroup_nodup _ _ _ _ hnd) ⟨(corporation e.1, gl), hgl, ?_⟩ ?_
      · simpa using hegl
      · intro y hy hh
        exact hsnd.1 (hh ▸ List.mem_map_of_mem Prod.fst hy)
    · exact ih _ e (addToGroup_nodup _ _ _ _ hnd) hxs hsnd.2

theorem mem_groupByCorp {α : Type} (corporation : String → String)
    (sales : List (String × α)) (e : String × α)
    (he : e ∈ sales) (hnd : (sales.map Prod.fst).Nodup) :
    ∃ g ∈ groupByCorp corporation sales, e ∈ g.2 := by
  unfold groupByCorp
  exact mem_groupFold corporation sales [] e List.nodup_nil he hnd

/-! ### Inversion of one row of `parse_currency_data` -/

theorem pyFloatD_of_ok {s : String} {v : ℚ}
    (h : pyFloat (removeCommas s) = .ok v) : pyFloatD s = v := by
  unfold pyFloatD
  rw [h]

theorem currencyStep_ok_cases {d0 d1 : String → Option (String × ℚ)}
    {line : List String} (h : currencyStep d0 line = .ok d1) :
    (¬ 10 < line.length ∧ d1 = d0) ∨
    (10 < line.length ∧ ∃ v4 v3,
      pyFloat (removeCommas ((nth line 4).getD "")) = .ok v4 ∧
      pyFloat (removeCommas ((nth line 3).getD "")) = .ok v3 ∧ ¬ v3 = 0 ∧
      d1 = fun c => if c = (nth line 0).getD ""
        then some ((nth line 8).getD "", 1 - |v4 / v3|) else d0 c) := by
  unfold currencyStep at h
  by_cases hlen : 10 < line.length
  · rw [if_neg (fun hh => hh hlen)] at h
    refine Or.inr ⟨hlen, ?_⟩
    cases h4 : pyFloat (removeCommas ((nth line 4).getD "")) with
    | error e => simp only [h4] at h; exact Except.noConfusion h
    | ok v4 =>
    simp only [h4] at h
    cases h3 : pyFloat (removeCommas ((nth line 3).getD "")) with
    | error e => simp only [h3] at h; exact Except.noConfusion h
    | ok v3 =>
    simp only [h3] at h
    by_cases hz : v3 = 0
    · rw [if_pos hz] at h
      exact Except.noConfusion h
    · rw [if_neg hz] at h
      cases h
      exact ⟨v4, v3, rfl, rfl, hz, rfl⟩
  · rw [if_pos hlen] at h
    cases h
    exact Or.inl ⟨hlen, rfl⟩

/-- The rate table built by a successful fold is a last-write fold of the
qualifying rows. -/
theorem currencyFoldChar (c : String) :
    ∀ (rows : List (List String)) (d0 d : String → Option (String × ℚ)),
      List.foldlM currencyStep d0 rows = .ok d →
      d c = (qualRows rows).foldl
        (fun acc l => if (nth l 0).getD "" = c then some (rateEntryOf l) else acc)
        (d0 c) := by
  intro rows
  induction rows with
  | nil =>
    intro d0 d h
    rw [foldlM_nilE] at h
    cases h
    rfl
  | cons r rs ih =>
    intro d0 d h
    rw [foldlM_consE] at h
    cases hstep : currencyStep d0 r with
    | error e => rw [hstep] at h; exact absurd h (by simp)
    | ok d1 =>
      rw [hstep, exceptBind_ok] at h
      have hrec := ih d1 d h
      rcases currencyStep_ok_cases hstep with ⟨hlen, rfl⟩ | ⟨hlen, v4, v3, h4, h3, hz, hd1⟩
      · have hq : qualRows (r :: rs) = qualRows rs := by
          unfold qualRows
          simp [List.filter_cons, hlen]
        rw [hrec, hq]
      · have hq : qualRows (r :: rs) = r :: qualRows rs := by
          unfold qualRows
          simp [List.filter_cons, hlen]
        rw [hrec, hq, List.foldl_cons]
        have hstepval : (if (nth r 0).getD "" = c then some (rateEntryOf r) else d0 c) = d1 c := by
          simp only [hd1]
          by_cases hc : (nth r 0).getD "" = c
          · rw [if_pos hc, if_pos hc.symm]
            unfold rateEntryOf
            rw [pyFloatD_of_ok h4, pyFloatD_of_ok h3]
          · rw [if_neg hc, if_neg (fun hh => hc hh.symm)]
        rw [hstepval]

/-- Folding the row-valued last-write and then taking the entry equals folding
the entry-valued last-write. -/
theorem foldl_lastq_map (c : String) :
    ∀ (ls : List (List String)) (acc : Option (List String)),
      ls.foldl (fun a l => if (nth l 0).getD "" = c then some (rateEntryOf l) else a)
        (acc.map rateEntryOf) =
      (ls.foldl (fun a l => if (nth l 0).getD "" = c then some l else a) acc).map
        rateEntryOf := by
  intro ls
  induction ls with
  | nil => intro acc; rfl
  | cons l ls ih =>
    intro acc
    rw [List.foldl_cons, List.foldl_cons]
    by_cases hc : (nth l 0).getD "" = c
    · rw [if_pos hc, if_pos hc]
      exact ih (some l)
    · rw [if_neg hc, if_neg hc]
      exact ih acc

/-! ## Claim theorems -/

/-- C1: for every set of report files, the ledger produced by a successful
`parse_financial_reports` maps each (country code, product id) pair to exactly
the straight sum of the quantities and the exact-decimal amounts of all input
data rows bearing that country and product (so entries are only ever summed,
never overwritten), and the result is independent of the order in which the
files are processed: any successful run on a permutation of the files yields
the same ledger value at every key. -/
theorem C1_ledger_is_straight_sum_and_order_independent
    (files files2 : List RFile) (st st2 : AggState)
    (h : parse_financial_reports files = .ok st)
    (h2 : parse_financial_reports files2 = .ok st2)
    (hperm : files.Perm files2) (c p : String) :
    ledgerAt st.countries c p = ledgerSum c p files ∧
    ledgerAt st2.countries c p = ledgerAt st.countries c p := by
  refine ⟨parse_ledger_sum h c p, ?_⟩
  rw [parse_ledger_sum h c p, parse_ledger_sum h2 c p]
  exact (ledgerSum_perm c p hperm).symm

/-- Witness for C1 at two concrete report files, processed in both orders. -/
theorem C1_witness :
    parse_financial_reports [wFileA, wFileB] = .ok (aggOf [wFileA, wFileB]) ∧
    parse_financial_reports [wFileB, wFileA] = .ok (aggOf [wFileB, wFileA]) ∧
    ledgerAt (aggOf [wFileA, wFileB]).countries "FR" "APP1" =
      ledgerSum "FR" "APP1" [wFileA, wFileB] ∧
    ledgerAt (aggOf [wFileB, wFileA]).countries "FR" "APP1" =
      ledgerAt (aggOf [wFileA, wFileB]).countries "FR" "APP1" := by
  have hperm : ([wFileA, wFileB] : List RFile).Perm [wFileB, wFileA] :=
    List.Perm.swap wFileB wFileA []
  have hmain := C1_ledger_is_straight_sum_and_order_independent
    [wFileA, wFileB] [wFileB, wFileA] (aggOf [wFileA, wFileB]) (aggOf [wFileB, wFileA])
    rfl rfl hperm "FR" "APP1"
  exact ⟨rfl, rfl, hmain.1, hmain.2⟩

/-- C3: for every product line whose country's recorded currency equals the
target reporting currency, the conversion of lines 152-158 yields exactly the
original aggregated amount with exchange rate `1`, for every rate table (no
rate-table lookup is involved). -/
theorem C3_identity_conversion_in_local_currency
    (currency_data : String → Option (String × ℚ)) (country_currency : String)
    (h : country_currency = local_currency) (amount : ℚ) :
    convertAmount currency_data country_currency amount = .ok (1, amount) := by
  unfold convertAmount
  rw [if_pos h]

/-- Witness for C3: an EUR line converts identically even under an empty
rate table. -/
theorem C3_witness :
    convertAmount (fun _ => none) "EUR" 5 = .ok (1, 5) :=
  C3_identity_conversion_in_local_currency (fun _ => none) "EUR" rfl 5

/-- C7: when the rate-reference file is absent from the working directory,
the run exits with code 1 and the printed guidance, whatever the rest of the
directory holds — no report file is parsed and no sales output is produced. -/
theorem C7_missing_rate_file_exits_1
    (corporation address countryname : String → String) (dir : List RFile)
    (h : findFile dir currency_data_filename = none) :
    main_run corporation address countryname dir = .error (1, missingRateFileMsg) := by
  unfold main_run
  rw [h]

/-- Witness for C7: a directory holding only report files. -/
theorem C7_witness :
    main_run (fun _ => "corp") (fun _ => "addr") (fun _ => "name") [wFileA, wFileB] =
      .error (1, missingRateFileMsg) :=
  C7_missing_rate_file_exits_1 (fun _ => "corp") (fun _ => "addr") (fun _ => "name")
    [wFileA, wFileB] rfl

/-- C8 (amended): `parse_financial_reports` processes exactly the files whose
name ends with the three characters `txt` (not necessarily preceded by a dot)
and is not the rate-reference filename; all other files are skipped without
error, so the run equals the run on just the retained files. -/
theorem C8_amended_txt_suffix_filter (files : List RFile) :
    parse_financial_reports files =
      parse_financial_reports (files.filter (fun f => isReportFile f.name)) := by
  unfold parse_financial_reports
  exact foldFiles_filter files initAggState

/-- Counterexample to C8 as stated: the file named `reportstxt` does not have
the `.txt` extension, yet it is processed (its row lands in the ledger) —
the source tests `filename.endswith('txt')`, not the `.txt` extension. -/
theorem C8_counterexample :
    parse_financial_reports [c8File] = .ok (aggOf [c8File]) ∧
    isReportFile "reportstxt" = true ∧
    specHasTxtExtension "reportstxt" = false ∧
    (ledgerAt (aggOf [c8File]).countries "FR" "APP1").1 = 2 ∧
    ((2 : ℤ) = 0 → False) := by
  refine ⟨rfl, by decide, by decide, by decide, by decide⟩

/-- C9 (amended): every nonempty line that does not begin with a recognizable
date token (no `/` in its first field — headers and footers) is silently
skipped: the state, ledger and currency map included, is returned unchanged
and no error is raised.  (A completely empty line, by contrast, raises
`IndexError`: see the counterexample.) -/
theorem C9_amended_nonempty_nondata_line_skipped
    (fn : String) (st : AggState) (l : List String)
    (hne : l ≠ []) (hnd : isDataLine l = false) :
    processLine fn st l = .ok st := by
  cases l with
  | nil => exact absurd rfl hne
  | cons x xs =>
    have hf0 : getField (x :: xs) 0 = .ok x := rfl
    rw [isDataLine_cons] at hnd
    unfold processLine
    simp only [hf0]
    rw [if_pos hnd]

/-- Witness for C9 (amended): a header line is skipped without any change. -/
theorem C9_witness :
    processLine "report_a.txt" initAggState ["Total_Rows", "2"] = .ok initAggState :=
  C9_amended_nonempty_nondata_line_skipped "report_a.txt" initAggState
    ["Total_Rows", "2"] (by decide) (by decide)

/-- Counterexample to C9 as stated: an empty line (which `csv.reader` yields
for a blank line) is *not* silently skipped — `line[0]` raises `IndexError`
and aborts the run. -/
theorem C9_counterexample :
    processLine "report_a.txt" initAggState [] =
      .error "IndexError: list index out of range" := rfl

/-- C10: the withholding-tax-factor computation divides column 4 by column 3
with no guard: a qualifying row (more than 10 columns) whose column 3 is zero
aborts parsing with `ZeroDivisionError`, and one whose column 3 is not numeric
aborts with a conversion error — the row is not skipped and no factor is
produced. -/
theorem C10_unguarded_division_aborts :
    parse_currency_data [c10ZeroRow] =
      .error "ZeroDivisionError: float division by zero" ∧
    isErr (parse_currency_data [c10BadRow]) = true ∧
    10 < c10ZeroRow.length ∧ 10 < c10BadRow.length := by
  refine ⟨rfl, rfl, by decide, by decide⟩

/-- C2: if a country of the sales dict has a recorded currency different from
the reporting currency and that currency is absent from the rate table, then
rendering the report fails (the uncaught `KeyError` aborts the run) — no
output, zero-filled or unconverted, is produced. -/
theorem C2_missing_rate_mapping_aborts_render
    (corporation address countryname : String → String)
    (currency_data : String → Option (String × ℚ))
    (sales : List (String × List (String × (ℤ × ℚ))))
    (currencies : String → Option String)
    (c cur : String) (prods : List (String × (ℤ × ℚ)))
    (hnd : (sales.map Prod.fst).Nodup)
    (hmem : (c, prods) ∈ sales) (hne : prods ≠ [])
    (hcur : currencies c = some cur) (hcl : ¬ cur = local_currency)
    (hmiss : currency_data cur = none) :
    isErr (print_sales_by_corporation corporation address countryname
      currency_data sales currencies) = true := by
  have hpfail : ∀ (st : List String × ℚ) (pr : String × (ℤ × ℚ)),
      processProduct currency_data cur st pr = .error ("KeyError: " ++ cur) := by
    intro st pr
    unfold processProduct convertAmount
    rw [if_neg hcl]
    simp only [hmiss]
  have hcfail : ∀ st, isErr (processCountry currency_data countryname currencies
      st (c, prods)) = true := by
    intro st
    unfold processCountry
    simp only [hcur]
    rcases List.exists_cons_of_ne_nil hne with ⟨pr, rest, hpr⟩
    rw [hpr, foldlM_consE, hpfail]
    simp
  rcases mem_groupByCorp corporation sales (c, prods) hmem hnd with ⟨g, hg, hcg⟩
  have hgfail : ∀ out, isErr (processCorp currency_data countryname address
      currencies out g) = true := by
    intro out
    unfold processCorp
    have hinner := foldlM_isErr (processCountry currency_data countryname currencies)
      (c, prods) hcfail g.2 hcg (out ++ ["", "", address g.1], 0)
    cases hin : g.2.foldlM (processCountry currency_data countryname currencies)
        (out ++ ["", "", address g.1], 0) with
    | error e => simp only [hin]; rfl
    | ok r =>
      rw [hin] at hinner
      exact Bool.noConfusion hinner
  unfold print_sales_by_corporation
  exact foldlM_isErr (processCorp currency_data countryname address currencies)
    g hgfail (groupByCorp corporation sales) hg []

/-- Witness for C2: one Japanese sale, currency `JPY` recorded, an empty rate
table; rendering aborts. -/
theorem C2_witness :
    isErr (print_sales_by_corporation (fun _ => "Apple KK") (fun _ => "Tokyo")
      (fun _ => "Japan") (fun _ => none) wSalesJP wCurrenciesJP) = true :=
  C2_missing_rate_mapping_aborts_render (fun _ => "Apple KK") (fun _ => "Tokyo")
    (fun _ => "Japan") (fun _ => none) wSalesJP wCurrenciesJP
    "JP" "JPY" [("APPX", (3, 500))]
    (by decide)
    (by unfold wSalesJP; exact List.mem_cons_self _ _)
    (List.cons_ne_nil _ _)
    rfl
    (by decide)
    rfl

/-- C4 (amended): after a successful `parse_currency_data`, the table maps
each currency code `c` to the column-8 exchange rate and the withholding-tax
factor `1 − |column4 / column3|` of the *last* row with more than 10 columns
whose column 0 is `c` (later qualifying rows overwrite earlier ones with the
same code), and holds no entry for codes with no such row; in particular a row
with exactly 11 columns is accepted and one with 10 or fewer is ignored. -/
theorem C4_amended_rate_table_entries
    {rows : List (List String)} {d : String → Option (String × ℚ)}
    (h : parse_currency_data rows = .ok d) (c : String) :
    d c = (lastQualFor rows c).map rateEntryOf := by
  have hchar := currencyFoldChar c rows (fun _ => none) d h
  rw [hchar]
  unfold lastQualFor
  have hm := foldl_lastq_map c (qualRows rows) none
  simpa using hm

/-- Witness for C4 (amended): an 11-column row is accepted with its column-8
rate and derived factor; a 10-column row contributes nothing. -/
theorem C4_witness :
    parse_currency_data c4RowsW = .ok (cdOf c4RowsW) ∧
    cdOf c4RowsW "USD" = (lastQualFor c4RowsW "USD").map rateEntryOf ∧
    cdOf c4RowsW "XXX" = (lastQualFor c4RowsW "XXX").map rateEntryOf ∧
    lastQualFor c4RowsW "USD" = some c4Row1 ∧
    lastQualFor c4RowsW "XXX" = none ∧
    c4Row1.length = 11 ∧ c4Row10.length = 10 :=
  ⟨rfl, @C4_amended_rate_table_entries c4RowsW (cdOf c4RowsW) rfl "USD",
   @C4_amended_rate_table_entries c4RowsW (cdOf c4RowsW) rfl "XXX",
   by decide, by decide, by decide, by decide⟩

/-- Counterexample to C4 as stated: with two qualifying rows that share the
currency code `USD`, the first row (11 columns, rate `1.1`) does *not* get an
entry mapping `USD` to its own column-8 rate — the entry carries the second
row's rate `2.0` (later rows overwrite earlier ones). -/
theorem C4_counterexample :
    parse_currency_data c4RowsDup = .ok (cdOf c4RowsDup) ∧
    c4Row1 ∈ c4RowsDup ∧ 10 < c4Row1.length ∧
    (nth c4Row1 0).getD "" = "USD" ∧ (nth c4Row1 8).getD "" = "1.1" ∧
    (cdOf c4RowsDup "USD").map (fun e => e.1) = some "2.0" ∧
    (("2.0" : String) = "1.1" → False) :=
  ⟨rfl, by decide, by decide, by decide, by decide, by decide, by decide⟩

/-- C5: a country whose data rows all come from report files whose name
carries the `_WW.` rest-of-world marker is recorded with the distinguished
`"USD - RoW"` currency variant, not the plain currency code of its rows. -/
theorem C5_ww_only_countries_get_RoW_variant
    (files : List RFile) (st : AggState) (c : String)
    (h : parse_financial_reports files = .ok st)
    (hww : ∀ f ∈ files, isReportFile f.name = true → ∀ l ∈ f.lines,
      isDataLine l = true → fld l 17 = c → containsWW f.name = true)
    (f0 : RFile) (l0 : List String) (hf0 : f0 ∈ files)
    (hf0r : isReportFile f0.name = true) (hl0 : l0 ∈ f0.lines)
    (hl0d : isDataLine l0 = true) (hl0c : fld l0 17 = c) :
    st.currencies c = some "USD - RoW" := by
  rw [parse_currencies_fold h c]
  refine curFold_const c "USD - RoW" (reportRows files) none ?_ ?_
  · intro r hr hrd hrc
    rcases mem_reportRows_elim hr with ⟨f, hf, hrep, hname, hline⟩
    have hwwr : containsWW r.1 = true := by
      rw [hname]
      exact hww f hf hrep r.2 hline hrd hrc
    unfold curWriteVal
    rw [if_pos hwwr]
  · exact ⟨(f0.name, l0), mem_reportRows_intro hf0 hf0r hl0, hl0d, hl0c⟩

/-- Witness for C5: Canada appears only in a `_WW.`-marked file whose rows
read plain `USD`; the recorded currency is `"USD - RoW"`. -/
theorem C5_witness :
    parse_financial_reports [wFileWW] = .ok (aggOf [wFileWW]) ∧
    (aggOf [wFileWW]).currencies "CA" = some "USD - RoW" := by
  refine ⟨rfl, ?_⟩
  exact C5_ww_only_countries_get_RoW_variant [wFileWW] (aggOf [wFileWW]) "CA"
    rfl (by decide) wFileWW wRowCA (by decide) (by decide) (by decide)
    (by decide) (by decide)

/-- C6: a recognized data line (in a processed report file) whose quantity
field does not parse as an integer, or whose amount field does not parse as a
decimal, makes the whole aggregation abort with an error — the malformed
value is never coerced or skipped. -/
theorem C6_malformed_number_aborts
    (files : List RFile) (f : RFile) (l : List String)
    (hf : f ∈ files) (hrep : isReportFile f.name = true) (hl : l ∈ f.lines)
    (hd : isDataLine l = true)
    (hbad : isErr (pyInt (fld l 5)) = true ∨ isErr (pyDecimal (fld l 7)) = true) :
    isErr (parse_financial_reports files) = true := by
  unfold parse_financial_reports
  refine foldlM_isErr processFileStep f ?_ files hf initAggState
  intro st
  unfold processFileStep
  rw [if_pos hrep]
  exact foldlM_isErr (processLine f.name) l
    (fun s => processLine_errs hd hbad f.name s) f.lines hl st

/-- Witness for C6: a report file with a data row whose quantity reads `2x`. -/
theorem C6_witness : isErr (parse_financial_reports [wFileBad]) = true :=
  C6_malformed_number_aborts [wFileBad] wFileBad wRowBadQty
    (by decide) (by decide) (by decide) (by decide) (Or.inl (by decide))

end Slicer
